import Mathlib

/-!
Verification of the batch TIFF conversion pipeline in
`Utilities/parallel_tif_to_jpg_or_png.py` (VesuviusDataDownload).

The script is embedded shallowly:

* Paths and filenames are `String`s; the relevant pieces of
  `os.path` (`join`, `basename`, `splitext`) and of Python `str`/`int`
  (`lower`, `startswith`, `endswith`, `int(...)` parsing) are modelled
  as executable functions on the underlying character lists.
* The filesystem is a `FS` value: a list of directory paths plus an
  association list from file paths to file contents.  Image decoding
  (`tifffile.imread`) is modelled by storing, for each TIFF file, the
  decoded pixel array (or `none` when decoding raises).
* `convert_single_tif` catches every exception, so it is a total
  function `FS → FS × List Event`; the event list records reads,
  writes and logged errors.
* `convert_tif`'s modulo filter sits inside `try: ... except ValueError:`,
  which catches both the `int(mod_value)` failure and an `int(stem)`
  failure inside the list comprehension; a `ZeroDivisionError` from
  `% 0` is not caught and propagates.  This is modelled with
  `Except PyError` and a `TifResult` carrying an optional uncaught error.
* `process_specific_folders` walks a directory tree with `os.walk`
  (top-down), pruning directories whose path ends in `.zarr`.
  The traversal runs over a snapshot `Dir` tree while the conversion
  effects are threaded through the `FS` state.  `os.walk` with the
  default `onerror=None` swallows the `scandir` error for a missing or
  non-directory root and yields nothing, which is modelled by passing
  `none` for the root tree.
-/

/-! ### Character-list string helpers -/

/-- `isPre t l` : the list `t` is a prefix of `l` (decidable, by chars). -/
def isPre : List Char → List Char → Bool
  | [], _ => true
  | _ :: _, [] => false
  | a :: as, b :: bs => a == b && isPre as bs

/-- Python `s.startswith(t)`. -/
def strStarts (s t : String) : Bool := isPre t.data s.data

/-- Python `s.endswith(t)`. -/
def strEnds (s t : String) : Bool := isPre t.data.reverse s.data.reverse

/-- Python `s.lower()` (ASCII case folding, as used on filenames here). -/
def pyLower (s : String) : String := String.mk (s.data.map Char.toLower)

/-- Code-point comparison of characters, as Python string comparison uses. -/
def chListLe : List Char → List Char → Bool
  | [], _ => true
  | _ :: _, [] => false
  | a :: as, b :: bs =>
    if a.toNat < b.toNat then true
    else if b.toNat < a.toNat then false
    else chListLe as bs

/-- Python `<=` on strings: lexicographic by code point. -/
def strLe (a b : String) : Bool := chListLe a.data b.data

/-- Insert into a list sorted by `strLe` (helper for `sortStr`). -/
def insertLe (x : String) : List String → List String
  | [] => [x]
  | y :: ys => if strLe x y then x :: y :: ys else y :: insertLe x ys

/-- Python `sorted` on a list of strings (insertion sort; the sorted
permutation of a string multiset is unique, so this agrees with any
other sorting algorithm). -/
def sortStr : List String → List String
  | [] => []
  | x :: xs => insertLe x (sortStr xs)

/-- `os.path.basename`: everything after the last `/`. -/
def pyBasename (p : String) : String :=
  String.mk ((p.data.reverse.takeWhile (fun c => !(c == '/'))).reverse)

/-- The stem part of `os.path.splitext` applied to a basename:
split at the last dot, unless every character before that dot is
itself a dot (CPython's leading-dot rule, so `".tif"` has no extension). -/
def splitextStem (b : String) : String :=
  match b.data.reverse.span (fun c => !(c == '.')) with
  | (_, []) => b
  | (_, _ :: stemRev) =>
    if (stemRev.reverse).any (fun c => !(c == '.')) then String.mk stemRev.reverse else b

/-- `os.path.join a b` for the cases arising here: absolute `b` wins,
a trailing separator on `a` is not doubled. -/
def pyJoin (a b : String) : String :=
  if strStarts b "/" then b
  else if a == "" then b
  else if strEnds a "/" then a ++ b
  else a ++ "/" ++ b

/-! ### Python `int(...)` parsing -/

/-- Python `str.strip()` whitespace characters (the ASCII ones). -/
def pySpace (c : Char) : Bool :=
  c == ' ' || c == '\t' || c == '\n' || c == '\r' || c == '\x0b' || c == '\x0c'

/-- Python `str.strip()`. -/
def pyStrip (l : List Char) : List Char :=
  ((l.dropWhile pySpace).reverse.dropWhile pySpace).reverse

/-- Digit-run parser for `int(...)`: decimal digits with single
underscores allowed between digits (Python 3.6+). -/
def pyDigitsGo (acc : Nat) : List Char → Option Nat
  | [] => some acc
  | '_' :: c :: rest =>
    if c.isDigit then pyDigitsGo (acc * 10 + (c.toNat - 48)) rest else none
  | ['_'] => none
  | c :: rest =>
    if c.isDigit then pyDigitsGo (acc * 10 + (c.toNat - 48)) rest else none

/-- Nonempty digit run (first char must be a digit). -/
def pyDigits : List Char → Option Nat
  | [] => none
  | c :: rest => if c.isDigit then pyDigitsGo (c.toNat - 48) rest else none

/-- Python `int(s)` on a string: `some n` on success, `none` when it
raises `ValueError`. -/
def pyInt (s : String) : Option Int :=
  match pyStrip s.data with
  | '+' :: rest => (pyDigits rest).map (fun n => (n : Int))
  | '-' :: rest => (pyDigits rest).map (fun n => -(n : Int))
  | l => (pyDigits l).map (fun n => (n : Int))

/-- Python `%` on integers (floor modulus: result has the divisor's sign). -/
def pyMod (a b : Int) : Int := Int.fmod a b

/-! ### Filesystem and image model -/

/-- A decoded image: whether its numpy dtype is `uint8`, and its pixel
values (flattened). -/
structure PyImage where
  dtype8 : Bool
  pixels : List Nat
deriving DecidableEq, Repr

/-- Contents of a file in the model.

* `tiff img` — a file whose bytes `tifffile.imread` decodes to `img`
  (`none` when decoding raises);
* `out format quality pixels` — an image file written by
  `PIL.Image.save` (`quality` is `some q` for JPEG, `none` for PNG);
* `blob` — any other content (`imread` raises on it). -/
inductive FileData where
  | tiff (img : Option PyImage)
  | out (format : String) (quality : Option Nat) (pixels : List Nat)
  | blob
deriving DecidableEq, Repr

/-- The filesystem: existing directories and files with contents. -/
structure FS where
  dirs : List String
  files : List (String × FileData)
deriving DecidableEq, Repr

/-- `dropPre t l = some rest` when `l = t ++ rest`. -/
def dropPre : List Char → List Char → Option (List Char)
  | [], l => some l
  | _ :: _, [] => none
  | a :: as, b :: bs => if a == b then dropPre as bs else none

/-- If path `p` is a direct child of directory `d`, its entry name. -/
def childName (d p : String) : Option String :=
  if d == "" then none
  else
    match dropPre (if strEnds d "/" then d.data else d.data ++ ['/']) p.data with
    | some rest =>
      if rest.isEmpty || rest.contains '/' then none else some (String.mk rest)
    | none => none

def FS.hasFile (fs : FS) (p : String) : Bool := fs.files.any (fun e => e.1 == p)

def FS.getFile (fs : FS) (p : String) : Option FileData :=
  (fs.files.find? (fun e => e.1 == p)).map (fun e => e.2)

/-- `os.path.exists`. -/
def FS.pathExists (fs : FS) (p : String) : Bool := fs.dirs.contains p || fs.hasFile p

/-- `os.makedirs`. -/
def FS.mkdir (fs : FS) (p : String) : FS := ⟨fs.dirs ++ [p], fs.files⟩

/-- Write (create or replace) a file. -/
def FS.writeFile (fs : FS) (p : String) (d : FileData) : FS :=
  if fs.hasFile p then
    ⟨fs.dirs, fs.files.map (fun e => if e.1 == p then (p, d) else e)⟩
  else ⟨fs.dirs, fs.files ++ [(p, d)]⟩

/-- `os.listdir`: names of the directory's file and subdirectory entries. -/
def FS.listdir (fs : FS) (d : String) : List String :=
  fs.files.filterMap (fun e => childName d e.1) ++ fs.dirs.filterMap (fun p => childName d p)

/-- Observable side effects, for stating frame properties. -/
inductive Event where
  | readFile (p : String)
  | wroteFile (p : String)
  | logError (p : String)
  | logWarn
  | madeDir (p : String)
deriving DecidableEq, Repr

/-- Errors that can propagate out of the folder converter. -/
inductive PyError where
  | valueError
  | zeroDivisionError
deriving DecidableEq, Repr

/-! ### `convert_single_tif` -/

/-- The pixel rescale applied when the dtype is not `uint8`:
`(img_array / 256).astype('uint8')` — float division truncated toward
zero (= floor for non-negative values), then cast to an 8-bit value. -/
def rescale8 (v : Nat) : Nat := v / 256 % 256

/-- `dest_file_path = os.path.join(dest_folder, f"{os.path.splitext(filename)[0]}.{output_format}")`. -/
def destFilePath (dest_folder file_path output_format : String) : String :=
  pyJoin dest_folder (splitextStem (pyBasename file_path) ++ "." ++ output_format)

/-- `convert_single_tif(file_path, dest_folder, output_format, quality, overwrite)`.
All exceptions are caught inside the function, so it always returns;
the event list records what it did. -/
def convert_single_tif (fs : FS) (file_path dest_folder output_format : String)
    (quality : Nat) (overwrite : Bool) : FS × List Event :=
  let dest_file_path := destFilePath dest_folder file_path output_format
  if !overwrite && fs.pathExists dest_file_path then
    (fs, [])
  else
    match fs.getFile file_path with
    | some (FileData.tiff (some img)) =>
      let arr := if img.dtype8 then img.pixels else img.pixels.map rescale8
      if output_format == "jpg" then
        (fs.writeFile dest_file_path (FileData.out "jpg" (some quality) arr),
         [Event.readFile file_path, Event.wroteFile dest_file_path])
      else if output_format == "png" then
        (fs.writeFile dest_file_path (FileData.out "png" none arr),
         [Event.readFile file_path, Event.wroteFile dest_file_path])
      else
        (fs, [Event.readFile file_path])
    | _ => (fs, [Event.readFile file_path, Event.logError file_path])

/-! ### `convert_tif` -/

/-- The candidate filter from `convert_tif`: lowercased name ends in
`.tif` or `.tiff` and the name does not start with `._`. -/
def isTifName (f : String) : Bool :=
  (strEnds (pyLower f) ".tif" || strEnds (pyLower f) ".tiff") && !(strStarts f "._")

/-- `sorted([os.path.join(source_folder, f) for f in os.listdir(source_folder) if ...])`. -/
def tifCandidates (fs : FS) (source_folder : String) : List String :=
  sortStr ((fs.listdir source_folder).filterMap
    (fun f => if isTifName f then some (pyJoin source_folder f) else none))

/-- `int(os.path.splitext(os.path.basename(f))[0])` applied to a candidate path. -/
def stemInt (f : String) : Option Int := pyInt (splitextStem (pyBasename f))

/-- The predicate of the filtering comprehension, for a successfully
parsed modulo value `m` (`false` on an unparseable stem, which in the
comprehension itself raises; see `modComp`). -/
def keepMod (m : Int) (f : String) : Bool :=
  match stemInt f with
  | some k => pyMod k m == 0
  | none => false

/-- The list comprehension
`[f for f in tif_files if int(os.path.splitext(os.path.basename(f))[0]) % mod_value == 0]`,
evaluated left to right: an unparseable stem raises `ValueError`, a zero
modulus raises `ZeroDivisionError`, whichever comes first. -/
def modComp (m : Int) : List String → Except PyError (List String)
  | [] => Except.ok []
  | f :: rest =>
    match stemInt f with
    | none => Except.error PyError.valueError
    | some k =>
      if m == 0 then Except.error PyError.zeroDivisionError
      else
        match modComp m rest with
        | Except.error e => Except.error e
        | Except.ok l => Except.ok (if pyMod k m == 0 then f :: l else l)

/-- The whole `if mod_value is not None: try: ... except ValueError:` block.
Returns the resulting file list and whether the warning was printed, or
the uncaught error.  On a caught `ValueError` the assignment to
`tif_files` never happened, so the unfiltered list survives. -/
def modFilterStep (tif_files : List String) (mod_value : Option String) :
    Except PyError (List String × Bool) :=
  match mod_value with
  | none => Except.ok (tif_files, false)
  | some s =>
    match pyInt s with
    | none => Except.ok (tif_files, true)
    | some m =>
      match modComp m tif_files with
      | Except.ok l => Except.ok (l, false)
      | Except.error PyError.valueError => Except.ok (tif_files, true)
      | Except.error e => Except.error e

/-- `dest_folder = f"{output_path or source_folder}{dest_folder_suffix}"`. -/
def destFolderOf (source_folder output_format : String) (output_path : Option String) : String :=
  (match output_path with | some p => p | none => source_folder) ++
    (if output_format == "jpg" then "_jpg" else "_png")

/-- `if not os.path.exists(dest_folder): os.makedirs(dest_folder)`. -/
def setupFS (fs : FS) (dest_folder : String) : FS :=
  if fs.pathExists dest_folder then fs else fs.mkdir dest_folder

/-- Submitting one `convert_single_tif` job per file and waiting for all
of them.  The jobs are independent (distinct destination filenames, no
shared mutable state), so the pool is modelled by running them in
submission order. -/
def runJobs (dest_folder output_format : String) (quality : Nat) (overwrite : Bool) :
    FS → List String → FS × List Event
  | fs, [] => (fs, [])
  | fs, f :: rest =>
    let r := convert_single_tif fs f dest_folder output_format quality overwrite
    let r2 := runJobs dest_folder output_format quality overwrite r.1 rest
    (r2.1, r.2 ++ r2.2)

/-- Result of a `convert_tif` call: final filesystem, events, and the
uncaught exception if one propagated. -/
structure TifResult where
  fs : FS
  events : List Event
  err : Option PyError
deriving DecidableEq, Repr

/-- `convert_tif(source_folder, output_format, quality, overwrite, mod_value, output_path)`. -/
def convert_tif (fs : FS) (source_folder output_format : String) (quality : Nat)
    (overwrite : Bool) (mod_value : Option String) (output_path : Option String) : TifResult :=
  let dest_folder := destFolderOf source_folder output_format output_path
  let fs1 := setupFS fs dest_folder
  let ev0 : List Event := if fs.pathExists dest_folder then [] else [Event.madeDir dest_folder]
  let tif_files := tifCandidates fs1 source_folder
  match modFilterStep tif_files mod_value with
  | Except.error e => ⟨fs1, ev0, some e⟩
  | Except.ok (files2, warned) =>
    let r := runJobs dest_folder output_format quality overwrite fs1 (sortStr files2)
    ⟨r.1, ev0 ++ (if warned then [Event.logWarn] else []) ++ r.2, none⟩

/-! ### `process_specific_folders` -/

/-- A snapshot of the directory tree walked by `os.walk` (file entries
are irrelevant to the traversal: the loop only uses `root` and `dirs`). -/
inductive Dir where
  | node (name : String) (subs : List Dir)

def Dir.name : Dir → String
  | .node n _ => n

def Dir.subs : Dir → List Dir
  | .node _ s => s

/-- Run `convert_tif` over a list of source folders, stopping at the
first uncaught exception (which propagates out of the walk loop).
Returns the folders actually passed to `convert_tif`, in order. -/
def runCalls (output_format : String) (quality : Nat) (overwrite : Bool)
    (mod_value : Option String) (output_path : Option String) :
    FS → List String → FS × List String × Option PyError
  | fs, [] => (fs, [], none)
  | fs, c :: cs =>
    let r := convert_tif fs c output_format quality overwrite mod_value output_path
    match r.err with
    | some e => (r.fs, [c], some e)
    | none =>
      let rest := runCalls output_format quality overwrite mod_value output_path r.fs cs
      (rest.1, c :: rest.2.1, rest.2.2)

mutual

/-- One step of the `for root, dirs, files in os.walk(...)` loop body at
directory `path`, followed by the walk of its subtree.  A path ending in
`.zarr` empties `dirs` in place and `continue`s, so neither the body nor
any descendant runs.  Otherwise a directory whose basename is in
`target_types` is processed: `layers` directly, any other match once per
immediate subdirectory not already ending in `_jpg`/`_png`. -/
def walkTree (targets : List String) (output_format : String) (quality : Nat)
    (overwrite : Bool) (mod_value : Option String) (output_path : Option String)
    (fs : FS) (path : String) (d : Dir) : FS × List String × Option PyError :=
  match d with
  | .node _ subs =>
    if strEnds path ".zarr" then (fs, [], none)
    else
      let calls :=
        if targets.contains (pyBasename path) then
          if pyBasename path == "layers" then [path]
          else
            subs.filterMap (fun s =>
              if strEnds s.name "_jpg" || strEnds s.name "_png" then none
              else some (pyJoin path s.name))
        else []
      match runCalls output_format quality overwrite mod_value output_path fs calls with
      | (fs1, l1, some e) => (fs1, l1, some e)
      | (fs1, l1, none) =>
        let r := walkSubs targets output_format quality overwrite mod_value output_path fs1 path subs
        (r.1, l1 ++ r.2.1, r.2.2)

/-- Walk the subdirectories in order, threading the filesystem state and
propagating an uncaught exception. -/
def walkSubs (targets : List String) (output_format : String) (quality : Nat)
    (overwrite : Bool) (mod_value : Option String) (output_path : Option String)
    (fs : FS) (path : String) : List Dir → FS × List String × Option PyError
  | [] => (fs, [], none)
  | d :: ds =>
    match walkTree targets output_format quality overwrite mod_value output_path
        fs (pyJoin path d.name) d with
    | (fs1, l1, some e) => (fs1, l1, some e)
    | (fs1, l1, none) =>
      let r := walkSubs targets output_format quality overwrite mod_value output_path fs1 path ds
      (r.1, l1 ++ r.2.1, r.2.2)

end

/-- `process_specific_folders(root_directory, target_types, ...)`.
`root = none` models a root that does not exist or is not a directory:
`os.walk` (default `onerror=None`) swallows the `scandir` `OSError` and
yields nothing, so the loop body never runs and the call returns
normally having processed no folder. -/
def process_specific_folders (fs : FS) (rootPath : String) (root : Option Dir)
    (targets : List String) (output_format : String) (quality : Nat) (overwrite : Bool)
    (mod_value : Option String) (output_path : Option String) :
    FS × List String × Option PyError :=
  match root with
  | none => (fs, [], none)
  | some d => walkTree targets output_format quality overwrite mod_value output_path fs rootPath d

/-! ### Derived predicates used in the statements and proofs -/

/-- The path's last character lowercases to `f` — true of every
candidate TIFF path (`.tif`/`.tiff`, case-insensitively). -/
def fPath (p : String) : Prop := ∃ c, p.data.getLast? = some c ∧ c.toLower = 'f'

/-- The path's last character is `g` — true of every path the converter
creates (`...jpg`, `...png`, `..._jpg`, `..._png`). -/
def gPath (p : String) : Prop := p.data.getLast? = some 'g'

/-- A single-file job at `f` is a no-op on `fs` (state unchanged). -/
def Settled (dest_folder output_format : String) (quality : Nat) (fs : FS) (f : String) : Prop :=
  (convert_single_tif fs f dest_folder output_format quality false).1 = fs

/-! ### List and string infrastructure lemmas -/

theorem isPre_iff (t l : List Char) : isPre t l = true ↔ ∃ r, l = t ++ r := by
  induction t generalizing l with
  | nil => simp [isPre]
  | cons a as ih =>
    cases l with
    | nil => simp [isPre]
    | cons b bs =>
      simp only [isPre, Bool.and_eq_true, beq_iff_eq, ih]
      constructor
      · rintro ⟨rfl, r, rfl⟩; exact ⟨r, rfl⟩
      · rintro ⟨r, h⟩
        injection h with h1 h2
        exact ⟨h1.symm, r, h2⟩

theorem strEnds_iff (s t : String) : strEnds s t = true ↔ ∃ r, s.data = r ++ t.data := by
  unfold strEnds
  rw [isPre_iff]
  constructor
  · rintro ⟨r, h⟩
    refine ⟨r.reverse, ?_⟩
    have := congrArg List.reverse h
    simpa using this
  · rintro ⟨r, h⟩
    exact ⟨r.reverse, by simp [h]⟩

theorem strStarts_iff (s t : String) : strStarts s t = true ↔ ∃ r, s.data = t.data ++ r := by
  unfold strStarts
  exact isPre_iff _ _

theorem strEnds_getLast (s t : String) (h : strEnds s t = true) (hne : t.data ≠ []) :
    s.data.getLast? = t.data.getLast? := by
  rcases (strEnds_iff s t).1 h with ⟨r, hr⟩
  rw [hr, List.getLast?_append]
  rcases hl : t.data.getLast? with _ | c
  · exact absurd (List.getLast?_eq_none_iff.1 hl) hne
  · rfl

theorem dropPre_eq (t l r : List Char) (h : dropPre t l = some r) : l = t ++ r := by
  induction t generalizing l with
  | nil => simpa [dropPre] using h
  | cons a as ih =>
    cases l with
    | nil => simp [dropPre] at h
    | cons b bs =>
      by_cases hab : a == b
      · have := ih bs (by simpa [dropPre, hab] using h)
        simp [beq_iff_eq.1 hab, this]
      · simp [dropPre, hab] at h

theorem childName_some (d p n : String) (h : childName d p = some n) :
    n.data ≠ [] ∧ n.data.contains '/' = false ∧ ∃ pre, p.data = pre ++ n.data := by
  unfold childName at h
  by_cases hd : (d == "") = true
  · rw [if_pos hd] at h; cases h
  · rw [if_neg hd] at h
    rcases hrest : dropPre (if strEnds d "/" = true then d.data else d.data ++ ['/']) p.data
      with _ | rest
    · rw [hrest] at h; cases h
    · rw [hrest] at h
      have h2 : (if (rest.isEmpty || rest.contains '/') = true then none
                 else some (String.mk rest)) = some n := h
      clear h
      by_cases hok : (rest.isEmpty || rest.contains '/') = true
      · rw [if_pos hok] at h2; cases h2
      · rw [if_neg hok] at h2
        injection h2 with h
        have hsplit : rest.isEmpty = false ∧ rest.contains '/' = false := by
          rcases h1 : rest.isEmpty <;> rcases h2 : rest.contains '/' <;> simp_all
        subst h
        refine ⟨?_, hsplit.2, ⟨_, dropPre_eq _ _ _ hrest⟩⟩
        intro hnil
        have : rest = [] := hnil
        rw [this] at hsplit
        simp at hsplit

theorem mem_insertLe (x y : String) (l : List String) :
    y ∈ insertLe x l ↔ y = x ∨ y ∈ l := by
  induction l with
  | nil => simp [insertLe]
  | cons z zs ih =>
    unfold insertLe
    by_cases h : strLe x z
    · simp [h]
    · simp only [h, Bool.false_eq_true, if_false, List.mem_cons, ih]
      tauto

theorem mem_sortStr (x : String) (l : List String) : x ∈ sortStr l ↔ x ∈ l := by
  induction l with
  | nil => simp [sortStr]
  | cons y ys ih => simp [sortStr, mem_insertLe, ih]

theorem chListLe_cons (a b : Char) (as bs : List Char) :
    chListLe (a :: as) (b :: bs) = true ↔
      a.toNat < b.toNat ∨ (a.toNat = b.toNat ∧ chListLe as bs = true) := by
  show (if a.toNat < b.toNat then true
        else if b.toNat < a.toNat then false else chListLe as bs) = true ↔ _
  by_cases h1 : a.toNat < b.toNat
  · simp [h1]
  · by_cases h2 : b.toNat < a.toNat
    · rw [if_neg h1, if_pos h2]
      constructor
      · intro hf; cases hf
      · rintro (h | ⟨he, _⟩)
        · exact absurd h h1
        · omega
    · have he : a.toNat = b.toNat := by omega
      rw [if_neg h1, if_neg h2]
      constructor
      · intro h; exact Or.inr ⟨he, h⟩
      · rintro (h | ⟨_, h⟩)
        · exact absurd h h1
        · exact h

theorem chListLe_total (a b : List Char) : chListLe a b = true ∨ chListLe b a = true := by
  induction a generalizing b with
  | nil => left; rfl
  | cons x xs ih =>
    cases b with
    | nil => right; rfl
    | cons y ys =>
      rcases Nat.lt_trichotomy x.toNat y.toNat with h | h | h
      · left; rw [chListLe_cons]; exact Or.inl h
      · rcases ih ys with h2 | h2
        · left; rw [chListLe_cons]; exact Or.inr ⟨h, h2⟩
        · right; rw [chListLe_cons]; exact Or.inr ⟨h.symm, h2⟩
      · right; rw [chListLe_cons]; exact Or.inl h

theorem chListLe_trans (a b c : List Char) (h1 : chListLe a b = true)
    (h2 : chListLe b c = true) : chListLe a c = true := by
  induction a generalizing b c with
  | nil => rfl
  | cons x xs ih =>
    cases b with
    | nil => cases h1
    | cons y ys =>
      cases c with
      | nil => cases h2
      | cons z zs =>
        rw [chListLe_cons] at h1 h2 ⊢
        rcases h1 with h1 | ⟨h1e, h1r⟩ <;> rcases h2 with h2 | ⟨h2e, h2r⟩
        · exact Or.inl (Nat.lt_trans h1 h2)
        · exact Or.inl (h2e ▸ h1)
        · exact Or.inl (h1e ▸ h2)
        · exact Or.inr ⟨h1e.trans h2e, ih ys zs h1r h2r⟩

theorem strLe_total (a b : String) : strLe a b = true ∨ strLe b a = true :=
  chListLe_total a.data b.data

theorem strLe_trans (a b c : String) (h1 : strLe a b = true) (h2 : strLe b c = true) :
    strLe a c = true :=
  chListLe_trans a.data b.data c.data h1 h2

theorem pairwise_insertLe (x : String) (l : List String)
    (h : List.Pairwise (fun a b => strLe a b = true) l) :
    List.Pairwise (fun a b => strLe a b = true) (insertLe x l) := by
  induction l with
  | nil => simp [insertLe]
  | cons y ys ih =>
    unfold insertLe
    rcases List.pairwise_cons.1 h with ⟨hy, hys⟩
    by_cases hxy : strLe x y = true
    · rw [if_pos hxy]
      refine List.pairwise_cons.2 ⟨?_, h⟩
      intro z hz
      rcases List.mem_cons.1 hz with rfl | hz
      · exact hxy
      · exact strLe_trans _ _ _ hxy (hy z hz)
    · have hyx : strLe y x = true := by
        rcases strLe_total x y with h' | h'
        · exact absurd h' hxy
        · exact h'
      rw [if_neg hxy]
      refine List.pairwise_cons.2 ⟨?_, ih hys⟩
      intro z hz
      rcases (mem_insertLe x z ys).1 hz with rfl | hz
      · exact hyx
      · exact hy z hz

theorem pairwise_sortStr (l : List String) :
    List.Pairwise (fun a b => strLe a b = true) (sortStr l) := by
  induction l with
  | nil => simp [sortStr]
  | cons y ys ih => exact pairwise_insertLe y (sortStr ys) ih

/-! ### Filesystem frame lemmas -/

theorem hasFile_writeFile_self (fs : FS) (p : String) (d : FileData) :
    (fs.writeFile p d).hasFile p = true := by
  unfold FS.writeFile
  by_cases h : fs.hasFile p = true
  · rw [if_pos h]
    unfold FS.hasFile at h ⊢
    simp only [List.any_eq_true] at h ⊢
    rcases h with ⟨e, he, hk⟩
    refine ⟨(p, d), List.mem_map.2 ⟨e, he, by rw [if_pos hk]⟩, by simp⟩
  · rw [if_neg h]
    unfold FS.hasFile
    simp

theorem hasFile_writeFile_mono (fs : FS) (p q : String) (d : FileData)
    (h : fs.hasFile q = true) : (fs.writeFile p d).hasFile q = true := by
  unfold FS.writeFile
  by_cases hp : fs.hasFile p = true
  · rw [if_pos hp]
    unfold FS.hasFile at h ⊢
    simp only [List.any_eq_true] at h ⊢
    rcases h with ⟨e, he, hk⟩
    by_cases hep : (e.1 == p) = true
    · have : p = q := by
        have h1 := beq_iff_eq.1 hep
        have h2 := beq_iff_eq.1 hk
        rw [← h1, h2]
      exact ⟨(p, d), List.mem_map.2 ⟨e, he, by rw [if_pos hep]⟩, by simp [this]⟩
    · exact ⟨e, List.mem_map.2 ⟨e, he, by rw [if_neg hep]⟩, hk⟩
  · rw [if_neg hp]
    unfold FS.hasFile at h ⊢
    simp only [List.any_eq_true] at h ⊢
    rcases h with ⟨e, he, hk⟩
    exact ⟨e, List.mem_append.2 (Or.inl he), hk⟩

theorem pathExists_writeFile_mono (fs : FS) (p q : String) (d : FileData)
    (h : fs.pathExists q = true) : (fs.writeFile p d).pathExists q = true := by
  unfold FS.pathExists at h ⊢
  have hdirs : (fs.writeFile p d).dirs = fs.dirs := by
    unfold FS.writeFile
    by_cases hp : fs.hasFile p = true
    · rw [if_pos hp]
    · rw [if_neg hp]
  rw [hdirs]
  rcases Bool.or_eq_true_iff.1 h with h' | h'
  · exact Bool.or_eq_true_iff.2 (Or.inl h')
  · exact Bool.or_eq_true_iff.2 (Or.inr (hasFile_writeFile_mono fs p q d h'))

theorem pathExists_writeFile_self (fs : FS) (p : String) (d : FileData) :
    (fs.writeFile p d).pathExists p = true := by
  unfold FS.pathExists
  exact Bool.or_eq_true_iff.2 (Or.inr (hasFile_writeFile_self fs p d))

theorem find?_map_update (l : List (String × FileData)) (p : String) (d : FileData)
    (h : l.any (fun e => e.1 == p) = true) :
    (l.map (fun e => if e.1 == p then (p, d) else e)).find? (fun e => e.1 == p)
      = some (p, d) := by
  induction l with
  | nil => cases h
  | cons e es ih =>
    by_cases hep : (e.1 == p) = true
    · rw [List.map_cons, if_pos hep]
      exact @List.find?_cons_of_pos _ (fun e => e.1 == p) (p, d) _ (by simp)
    · rw [List.map_cons, if_neg hep,
        @List.find?_cons_of_neg _ (fun e => e.1 == p) e _ hep]
      rw [List.any_cons] at h
      rcases Bool.or_eq_true_iff.1 h with h' | h'
      · exact absurd h' hep
      · exact ih h'

theorem find?_append_fresh (l : List (String × FileData)) (p : String) (d : FileData)
    (h : l.any (fun e => e.1 == p) = false) :
    (l ++ [(p, d)]).find? (fun e => e.1 == p) = some (p, d) := by
  induction l with
  | nil => exact @List.find?_cons_of_pos _ (fun e => e.1 == p) (p, d) _ (by simp)
  | cons e es ih =>
    rw [List.any_cons, Bool.or_eq_false_iff] at h
    rw [List.cons_append,
      @List.find?_cons_of_neg _ (fun e => e.1 == p) e _
        (by show ¬(e.1 == p) = true; rw [h.1]; exact Bool.false_ne_true)]
    exact ih h.2

theorem find?_map_update_ne (l : List (String × FileData)) (p q : String) (d : FileData)
    (hq : q ≠ p) :
    (l.map (fun e => if e.1 == p then (p, d) else e)).find? (fun e => e.1 == q)
      = l.find? (fun e => e.1 == q) := by
  induction l with
  | nil => rfl
  | cons e es ih =>
    by_cases hep : (e.1 == p) = true
    · have hpq : ((p : String) == q) = false := beq_eq_false_iff_ne.2 fun hc => hq hc.symm
      have heq : (e.1 == q) = false := by
        rw [beq_iff_eq.1 hep]
        exact hpq
      rw [List.map_cons, if_pos hep,
        @List.find?_cons_of_neg _ (fun e => e.1 == q) (p, d) _
          (by show ¬((p : String) == q) = true; rw [hpq]; exact Bool.false_ne_true),
        @List.find?_cons_of_neg _ (fun e => e.1 == q) e _
          (by show ¬(e.1 == q) = true; rw [heq]; exact Bool.false_ne_true)]
      exact ih
    · rw [List.map_cons, if_neg hep]
      by_cases heq : (e.1 == q) = true
      · rw [@List.find?_cons_of_pos _ (fun e => e.1 == q) e _ heq,
          @List.find?_cons_of_pos _ (fun e => e.1 == q) e _ heq]
      · rw [@List.find?_cons_of_neg _ (fun e => e.1 == q) e _ heq,
          @List.find?_cons_of_neg _ (fun e => e.1 == q) e _ heq]
        exact ih

theorem find?_append_ne (l : List (String × FileData)) (p q : String) (d : FileData)
    (hq : q ≠ p) :
    (l ++ [(p, d)]).find? (fun e => e.1 == q) = l.find? (fun e => e.1 == q) := by
  induction l with
  | nil =>
    have hpq : ((p : String) == q) = false := beq_eq_false_iff_ne.2 fun hc => hq hc.symm
    simp only [List.nil_append]
    rw [@List.find?_cons_of_neg _ (fun e => e.1 == q) (p, d) _
      (by show ¬((p : String) == q) = true; rw [hpq]; exact Bool.false_ne_true)]
  | cons e es ih =>
    by_cases heq : (e.1 == q) = true
    · rw [List.cons_append, @List.find?_cons_of_pos _ (fun e => e.1 == q) e _ heq,
        @List.find?_cons_of_pos _ (fun e => e.1 == q) e _ heq]
    · rw [List.cons_append, @List.find?_cons_of_neg _ (fun e => e.1 == q) e _ heq,
        @List.find?_cons_of_neg _ (fun e => e.1 == q) e _ heq]
      exact ih

theorem getFile_writeFile_self (fs : FS) (p : String) (d : FileData) :
    (fs.writeFile p d).getFile p = some d := by
  unfold FS.writeFile FS.getFile
  by_cases h : fs.hasFile p = true
  · rw [if_pos h]
    simp only
    rw [find?_map_update fs.files p d h]
    rfl
  · rw [if_neg h]
    simp only
    rw [find?_append_fresh fs.files p d (Bool.not_eq_true _ ▸ h)]
    rfl

theorem getFile_writeFile_ne (fs : FS) (p q : String) (d : FileData) (hq : q ≠ p) :
    (fs.writeFile p d).getFile q = fs.getFile q := by
  unfold FS.writeFile FS.getFile
  by_cases h : fs.hasFile p = true
  · rw [if_pos h]
    simp only
    rw [find?_map_update_ne fs.files p q d hq]
  · rw [if_neg h]
    simp only
    rw [find?_append_ne fs.files p q d hq]

theorem getLast_append_right (a b : List Char) (hb : b ≠ []) :
    (a ++ b).getLast? = b.getLast? := by
  rcases h : b.getLast? with _ | c
  · exact absurd (List.getLast?_eq_none_iff.1 h) hb
  · rw [List.getLast?_append, h]
    rfl

theorem fPath_of_isTifName (n : String) (h : isTifName n = true) :
    n.data ≠ [] ∧ ∃ c, n.data.getLast? = some c ∧ c.toLower = 'f' := by
  unfold isTifName at h
  rcases Bool.and_eq_true_iff.1 h with ⟨h1, _⟩
  have key : (pyLower n).data.getLast? = some 'f' := by
    rcases Bool.or_eq_true_iff.1 h1 with h2 | h2
    · rw [strEnds_getLast _ _ h2 (by decide)]; rfl
    · rw [strEnds_getLast _ _ h2 (by decide)]; rfl
  rw [show (pyLower n).data = n.data.map Char.toLower from rfl, List.getLast?_map] at key
  rcases Option.map_eq_some'.1 key with ⟨c, hc, hlc⟩
  refine ⟨?_, c, hc, hlc⟩
  intro hnil
  rw [hnil] at hc
  cases hc

theorem isTifName_eq_false_of_g (n : String) (h : n.data.getLast? = some 'g') :
    isTifName n = false := by
  rcases hb : isTifName n with _ | _
  · rfl
  · exfalso
    rcases fPath_of_isTifName n hb with ⟨_, c, hc, hlc⟩
    rw [h] at hc
    injection hc with hc
    rw [← hc] at hlc
    exact absurd hlc (by decide)

theorem pyJoin_data (a b : String) : ∃ pre, (pyJoin a b).data = pre ++ b.data := by
  unfold pyJoin
  by_cases h1 : strStarts b "/" = true
  · rw [if_pos h1]; exact ⟨[], rfl⟩
  · rw [if_neg h1]
    by_cases h2 : (a == "") = true
    · rw [if_pos h2]; exact ⟨[], rfl⟩
    · rw [if_neg h2]
      by_cases h3 : strEnds a "/" = true
      · rw [if_pos h3]; exact ⟨a.data, String.data_append a b⟩
      · rw [if_neg h3]
        refine ⟨a.data ++ "/".data, ?_⟩
        rw [String.data_append, String.data_append, List.append_assoc]

theorem getLast_pyJoin (a b : String) (hb : b.data ≠ []) :
    (pyJoin a b).data.getLast? = b.data.getLast? := by
  rcases pyJoin_data a b with ⟨pre, hp⟩
  rw [hp]
  exact getLast_append_right pre b.data hb

theorem fPath_of_mem_tifCandidates (fs : FS) (src p : String)
    (h : p ∈ tifCandidates fs src) : fPath p := by
  unfold tifCandidates at h
  rw [mem_sortStr] at h
  rcases List.mem_filterMap.1 h with ⟨n, _, hgate⟩
  by_cases ht : isTifName n = true
  · rw [if_pos ht] at hgate
    injection hgate with hgate
    subst hgate
    rcases fPath_of_isTifName n ht with ⟨hne, c, hc, hlc⟩
    exact ⟨c, by rw [getLast_pyJoin src n hne]; exact hc, hlc⟩
  · rw [if_neg ht] at hgate; cases hgate

theorem ne_of_fPath_gPath (p q : String) (hf : fPath p) (hg : gPath q) : p ≠ q := by
  rintro rfl
  rcases hf with ⟨c, hc, hlc⟩
  rw [hg] at hc
  injection hc with hc
  rw [← hc] at hlc
  exact absurd hlc (by decide)

theorem gPath_destFilePath (dest f fmt : String) (h : fmt = "jpg" ∨ fmt = "png") :
    gPath (destFilePath dest f fmt) := by
  have hfd : fmt.data.getLast? = some 'g' := by rcases h with rfl | rfl <;> rfl
  have hfne : fmt.data ≠ [] := by rcases h with rfl | rfl <;> decide
  unfold destFilePath gPath
  have h1 : (splitextStem (pyBasename f) ++ "." ++ fmt).data
      = (splitextStem (pyBasename f) ++ ".").data ++ fmt.data := String.data_append _ _
  have h2 : (splitextStem (pyBasename f) ++ "." ++ fmt).data ≠ [] := by
    rw [h1]
    intro hc
    exact hfne (List.append_eq_nil.1 hc).2
  rw [getLast_pyJoin _ _ h2, h1, getLast_append_right _ _ hfne, hfd]

theorem pathExists_mkdir_self (fs : FS) (p : String) : (fs.mkdir p).pathExists p = true := by
  unfold FS.mkdir FS.pathExists
  simp

theorem pathExists_mkdir_mono (fs : FS) (p q : String) (h : fs.pathExists q = true) :
    (fs.mkdir p).pathExists q = true := by
  unfold FS.pathExists at h
  unfold FS.mkdir FS.pathExists
  rcases Bool.or_eq_true_iff.1 h with h' | h'
  · refine Bool.or_eq_true_iff.2 (Or.inl ?_)
    exact List.elem_iff.2 (List.mem_append.2 (Or.inl (List.elem_iff.1 h')))
  · exact Bool.or_eq_true_iff.2 (Or.inr h')

theorem pathExists_setupFS (fs : FS) (p : String) : (setupFS fs p).pathExists p = true := by
  unfold setupFS
  by_cases h : fs.pathExists p = true
  · rw [if_pos h]; exact h
  · rw [if_neg h]; exact pathExists_mkdir_self fs p

/-! ### Claim C5: overwrite=false with existing destination is a no-op -/

/-- Claim C5: for every source file path, destination folder, format and
quality, if the overwrite flag is false and the destination file already
exists, `convert_single_tif` is a no-op: it returns the filesystem
unchanged and performs no read, no write and no log (empty event list). -/
theorem claim5_no_overwrite_noop (fs : FS) (file_path dest_folder output_format : String)
    (quality : Nat)
    (h : fs.pathExists (destFilePath dest_folder file_path output_format) = true) :
    convert_single_tif fs file_path dest_folder output_format quality false = (fs, []) := by
  simp [convert_single_tif, h]

/-- Witness for C5 at a concrete filesystem where `d/0.jpg` exists. -/
theorem claim5_no_overwrite_noop_witness :
    convert_single_tif ⟨[], [("d/0.jpg", FileData.out "jpg" (some 95) [1])]⟩
        "s/0.tif" "d" "jpg" 95 false
      = (⟨[], [("d/0.jpg", FileData.out "jpg" (some 95) [1])]⟩, []) :=
  claim5_no_overwrite_noop _ _ _ _ _ (by decide)

/-! ### Claim C2: missing root directory (corrected) -/

/-- Counterexample to claim C2: with a root that does not exist (or is
not a directory), `process_specific_folders` processes no folders AND
completes normally (no propagated error), contradicting the claimed
nonzero-equivalent (error) termination. -/
theorem claim2_counterexample :
    (process_specific_folders ⟨[], []⟩ "/missing" none ["layers"] "jpg" 95 false none none).2.1
      = []
    ∧ (process_specific_folders ⟨[], []⟩ "/missing" none ["layers"] "jpg" 95 false none
        none).2.2 = none :=
  ⟨rfl, rfl⟩

/-- Claim C2 as amended: if the root directory does not exist or is not
a directory, `os.walk` silently yields nothing, so
`process_specific_folders` processes no folders, changes nothing, and
the run completes successfully (exit status 0), rather than
terminating with an error. -/
theorem claim2_amended (fs : FS) (rootPath : String) (targets : List String)
    (output_format : String) (quality : Nat) (overwrite : Bool)
    (mod_value output_path : Option String) :
    process_specific_folders fs rootPath none targets output_format quality overwrite
        mod_value output_path
      = (fs, [], none) := rfl

/-! ### Claim C8: `.zarr` pruning -/

/-- Claim C8: whenever the walk reaches a directory whose path ends in
`.zarr`, its entire subtree is pruned: no descendant is visited, no
folder under it is passed to `convert_tif`, and the filesystem is
untouched — regardless of target-type matches (such as a `layers`
directory) anywhere inside it. -/
theorem claim8_zarr_pruned (targets : List String) (output_format : String) (quality : Nat)
    (overwrite : Bool) (mod_value output_path : Option String) (fs : FS) (path : String)
    (d : Dir) (h : strEnds path ".zarr" = true) :
    walkTree targets output_format quality overwrite mod_value output_path fs path d
      = (fs, [], none) := by
  cases d with
  | node nm subs =>
    unfold walkTree
    rw [if_pos h]

/-- Witness for C8: a `foo.zarr` directory containing a `layers`
subdirectory contributes no conversion at all. -/
theorem claim8_zarr_pruned_witness :
    walkTree ["layers"] "jpg" 95 false none none ⟨[], []⟩ "a/foo.zarr"
        (Dir.node "foo.zarr" [Dir.node "layers" []])
      = (⟨[], []⟩, [], none) :=
  claim8_zarr_pruned _ _ _ _ _ _ _ _ _ (by decide)

/-! ### Claim C3: modulo filtering -/

theorem modComp_filter (m : Int) (l : List String) (hm : m ≠ 0)
    (hl : ∀ f ∈ l, (stemInt f).isSome = true) :
    modComp m l = Except.ok (l.filter (keepMod m)) := by
  induction l with
  | nil => rfl
  | cons f rest ih =>
    have hf := hl f (List.mem_cons_self f rest)
    rcases hsf : stemInt f with _ | k
    · rw [hsf] at hf; cases hf
    · have hm0 : (m == 0) = false := beq_eq_false_iff_ne.2 hm
      have ihr := ih (fun g hg => hl g (List.mem_cons_of_mem f hg))
      unfold modComp
      rw [hsf, hm0]
      simp only [Bool.false_eq_true, if_false, ihr, List.filter_cons]
      unfold keepMod
      rw [hsf]

/-- Claim C3: if the supplied modulo value parses as a (nonzero) integer
`m` and every candidate stem parses as an integer, the filter keeps
exactly the candidates whose stem is divisible by `m` (no warning); if
the modulo value fails to parse as an integer, the filter step is
skipped entirely, the warning is logged, and the full unfiltered
candidate list survives. -/
theorem claim3_modulo_filter :
    (∀ (files : List String) (s : String) (m : Int),
      pyInt s = some m → m ≠ 0 →
      (∀ f ∈ files, (stemInt f).isSome = true) →
      modFilterStep files (some s) = Except.ok (files.filter (keepMod m), false))
    ∧ ∀ (files : List String) (s : String),
      pyInt s = none →
      modFilterStep files (some s) = Except.ok (files, true) := by
  constructor
  · intro files s m hs hm hl
    simp only [modFilterStep, hs, modComp_filter m files hm hl]
  · intro files s hs
    simp only [modFilterStep, hs]

/-- Witness for C3: files `0.tif … 9.tif` with modulo `"3"` yield exactly
`{0,3,6,9}.tif`; with modulo `"abc"` the full set survives and the
warning fires. -/
theorem claim3_modulo_filter_witness :
    modFilterStep ["0.tif", "1.tif", "2.tif", "3.tif", "4.tif", "5.tif", "6.tif", "7.tif",
        "8.tif", "9.tif"] (some "3")
      = Except.ok (["0.tif", "3.tif", "6.tif", "9.tif"], false)
    ∧ modFilterStep ["0.tif", "1.tif", "2.tif", "3.tif", "4.tif", "5.tif", "6.tif", "7.tif",
        "8.tif", "9.tif"] (some "abc")
      = Except.ok (["0.tif", "1.tif", "2.tif", "3.tif", "4.tif", "5.tif", "6.tif", "7.tif",
          "8.tif", "9.tif"], true) := by
  constructor
  · have h := claim3_modulo_filter.1
      ["0.tif", "1.tif", "2.tif", "3.tif", "4.tif", "5.tif", "6.tif", "7.tif", "8.tif",
        "9.tif"] "3" 3 (by decide) (by decide) (by decide)
    rw [h]
    rfl
  · exact claim3_modulo_filter.2 _ "abc" (by decide)

/-! ### Claim C4: the 16-bit rescale truncates -/

theorem rescale8_eq_div (v : Nat) (h : v < 65536) : rescale8 v = v / 256 := by
  unfold rescale8
  have hlt : v / 256 < 256 := (Nat.div_lt_iff_lt_mul (by norm_num)).2 (by omega)
  exact Nat.mod_eq_of_lt hlt

/-- Claim C4: for every decoded image whose dtype is not 8-bit (and whose
values fit in 16 bits), the converter writes the destination file with
every pixel rescaled by truncating integer division by 256 before
encoding.  In particular 0 maps to 0 and 256 maps to 1. -/
theorem claim4_rescale_truncates (fs : FS) (file_path dest_folder output_format : String)
    (quality : Nat) (overwrite : Bool) (pix : List Nat)
    (hread : fs.getFile file_path = some (FileData.tiff (some ⟨false, pix⟩)))
    (h16 : ∀ v ∈ pix, v < 65536)
    (hfmt : output_format = "jpg" ∨ output_format = "png")
    (hgo : overwrite = true
      ∨ fs.pathExists (destFilePath dest_folder file_path output_format) = false) :
    ∃ qv, ((convert_single_tif fs file_path dest_folder output_format quality overwrite).1).getFile
        (destFilePath dest_folder file_path output_format)
      = some (FileData.out output_format qv (pix.map (fun v => v / 256))) := by
  have hmap : pix.map rescale8 = pix.map (fun v => v / 256) :=
    List.map_congr_left (fun v hv => rescale8_eq_div v (h16 v hv))
  have hguard :
      (!overwrite && fs.pathExists (destFilePath dest_folder file_path output_format))
        = false := by
    rcases hgo with rfl | hh
    · rfl
    · rw [hh]; exact Bool.and_false _
  rcases hfmt with rfl | rfl
  · refine ⟨some quality, ?_⟩
    simp only [convert_single_tif, hguard, Bool.false_eq_true, if_false, hread]
    rw [if_pos (show (("jpg" : String) == "jpg") = true from rfl)]
    show (fs.writeFile (destFilePath dest_folder file_path "jpg")
        (FileData.out "jpg" (some quality) (List.map rescale8 pix))).getFile
        (destFilePath dest_folder file_path "jpg")
      = some (FileData.out "jpg" (some quality) (List.map (fun v => v / 256) pix))
    rw [getFile_writeFile_self, hmap]
  · refine ⟨none, ?_⟩
    simp only [convert_single_tif, hguard, Bool.false_eq_true, if_false, hread]
    rw [if_neg (show ¬(("png" : String) == "jpg") = true from by decide)]
    rw [if_pos (show (("png" : String) == "png") = true from rfl)]
    show (fs.writeFile (destFilePath dest_folder file_path "png")
        (FileData.out "png" none (List.map rescale8 pix))).getFile
        (destFilePath dest_folder file_path "png")
      = some (FileData.out "png" none (List.map (fun v => v / 256) pix))
    rw [getFile_writeFile_self, hmap]

/-- Witness for C4: a 16-bit image with pixel values 256 and 0 is written
as PNG pixel values 1 and 0 (truncating division, no rounding). -/
theorem claim4_rescale_truncates_witness :
    ∃ qv, ((convert_single_tif ⟨["s"], [("s/0.tif", FileData.tiff (some ⟨false, [256, 0]⟩))]⟩
        "s/0.tif" "s_png" "png" 95 true).1).getFile
        (destFilePath "s_png" "s/0.tif" "png")
      = some (FileData.out "png" qv [1, 0]) := by
  have h := claim4_rescale_truncates
    ⟨["s"], [("s/0.tif", FileData.tiff (some ⟨false, [256, 0]⟩))]⟩
    "s/0.tif" "s_png" "png" 95 true [256, 0] (by decide) (by decide) (Or.inr rfl)
    (Or.inl rfl)
  simpa using h

/-! ### Claim C7: the candidate file set -/

theorem pyJoin_inj_of_not_abs (a b c : String) (hb : strStarts b "/" = false)
    (hc : strStarts c "/" = false) (h : pyJoin a b = pyJoin a c) : b = c := by
  unfold pyJoin at h
  rw [hb] at h
  rw [hc] at h
  simp only [Bool.false_eq_true, if_false] at h
  by_cases h2 : (a == "") = true
  · rw [if_pos h2, if_pos h2] at h
    exact h
  · rw [if_neg h2, if_neg h2] at h
    by_cases h3 : strEnds a "/" = true
    · rw [if_pos h3, if_pos h3] at h
      have := congrArg String.data h
      rw [String.data_append, String.data_append] at this
      exact String.ext (List.append_cancel_left this)
    · rw [if_neg h3, if_neg h3] at h
      have := congrArg String.data h
      rw [String.data_append, String.data_append, String.data_append,
        String.data_append, List.append_assoc, List.append_assoc] at this
      exact String.ext (List.append_cancel_left (List.append_cancel_left this))

theorem strStarts_dot_underscore_not_abs (n : String) (h : strStarts n "._" = true) :
    strStarts n "/" = false := by
  rcases (strStarts_iff n "._").1 h with ⟨r, hr⟩
  rcases hb : strStarts n "/" with _ | _
  · rfl
  · exfalso
    rcases (strStarts_iff n "/").1 hb with ⟨r2, hr2⟩
    rw [hr] at hr2
    have : '.' = '/' := by
      have h5 := congrArg (fun l => l.head?) hr2
      simp at h5
    cases this

theorem mem_listdir_not_abs (fs : FS) (d n : String) (h : n ∈ fs.listdir d) :
    strStarts n "/" = false := by
  unfold FS.listdir at h
  have hcn : ∃ p, childName d p = some n := by
    rcases List.mem_append.1 h with h' | h'
    · rcases List.mem_filterMap.1 h' with ⟨e, _, he⟩
      exact ⟨e.1, he⟩
    · rcases List.mem_filterMap.1 h' with ⟨p, _, hp⟩
      exact ⟨p, hp⟩
  rcases hcn with ⟨p, hp⟩
  rcases childName_some d p n hp with ⟨hne, hsl, _⟩
  rcases hb : strStarts n "/" with _ | _
  · rfl
  · exfalso
    rcases (strStarts_iff n "/").1 hb with ⟨r, hr⟩
    have : '/' ∈ n.data := by rw [hr]; exact List.mem_append.2 (Or.inl (by simp))
    rw [show ('/' ∈ n.data) = (n.data.contains '/' = true) from by
      simp [List.elem_iff]] at this
    rw [hsl] at this
    cases this

/-- Claim C7: the candidate set of `convert_tif` is exactly the entries
of the source folder whose lowercased name ends in `.tif` or `.tiff`
and that do not begin with `._`, each joined to the source folder path
and sorted lexicographically; in particular a name beginning with the
`._` resource-fork prefix is never a candidate. -/
theorem claim7_candidate_set (fs : FS) (source_folder : String) :
    (∀ p, p ∈ tifCandidates fs source_folder ↔
      ∃ n, n ∈ fs.listdir source_folder ∧ isTifName n = true ∧ p = pyJoin source_folder n)
    ∧ List.Pairwise (fun a b => strLe a b = true) (tifCandidates fs source_folder)
    ∧ ∀ n, strStarts n "._" = true →
        pyJoin source_folder n ∉ tifCandidates fs source_folder := by
  have hmem : ∀ p, p ∈ tifCandidates fs source_folder ↔
      ∃ n, n ∈ fs.listdir source_folder ∧ isTifName n = true
        ∧ p = pyJoin source_folder n := by
    intro p
    unfold tifCandidates
    rw [mem_sortStr, List.mem_filterMap]
    constructor
    · rintro ⟨n, hn, hgate⟩
      by_cases ht : isTifName n = true
      · rw [if_pos ht] at hgate
        injection hgate with hgate
        exact ⟨n, hn, ht, hgate.symm⟩
      · rw [if_neg ht] at hgate; cases hgate
    · rintro ⟨n, hn, ht, rfl⟩
      exact ⟨n, hn, by rw [if_pos ht]⟩
  refine ⟨hmem, ?_, ?_⟩
  · unfold tifCandidates
    exact pairwise_sortStr _
  · intro n hn hmem2
    rcases (hmem _).1 hmem2 with ⟨n2, hn2, ht2, hj⟩
    have hne : n = n2 := by
      refine pyJoin_inj_of_not_abs source_folder n n2
        (strStarts_dot_underscore_not_abs n hn) (mem_listdir_not_abs fs _ _ hn2) hj
    subst hne
    unfold isTifName at ht2
    rcases Bool.and_eq_true_iff.1 ht2 with ⟨_, h2⟩
    rw [hn] at h2
    cases h2

/-- Witness for C7: in a folder holding `1.tif` and `._2.tif`, the
hidden resource-fork file is not a candidate. -/
theorem claim7_candidate_set_witness :
    pyJoin "s" "._2.tif"
      ∉ tifCandidates ⟨[], [("s/1.tif", FileData.blob), ("s/._2.tif", FileData.blob)]⟩ "s" :=
  (claim7_candidate_set ⟨[], [("s/1.tif", FileData.blob), ("s/._2.tif", FileData.blob)]⟩
    "s").2.2 "._2.tif" (by decide)

/-! ### Claim C1: non-numeric stem during modulo filtering (corrected) -/

theorem modComp_valueError (m : Int) (l : List String) (hm : m ≠ 0)
    (hbad : ∃ f ∈ l, stemInt f = none) :
    modComp m l = Except.error PyError.valueError := by
  induction l with
  | nil => rcases hbad with ⟨f, hf, _⟩; cases hf
  | cons f rest ih =>
    rcases hsf : stemInt f with _ | k
    · unfold modComp; rw [hsf]
    · rcases hbad with ⟨g, hg, hgn⟩
      rcases List.mem_cons.1 hg with rfl | hg2
      · rw [hsf] at hgn; cases hgn
      · have hm0 : (m == 0) = false := beq_eq_false_iff_ne.2 hm
        have ihr := ih ⟨g, hg2, hgn⟩
        simp only [modComp, hsf, hm0, Bool.false_eq_true, if_false, ihr]

/-- Counterexample to claim C1: a folder whose only candidate has the
non-numeric stem `abc`, with the integer-parseable modulo value `"5"`:
`convert_tif` completes normally (no propagated error) instead of
raising — the `ValueError` from `int("abc")` is caught by the same
`except ValueError:` handler that guards the modulo-value parse. -/
theorem claim1_counterexample :
    stemInt "src/abc.tif" = none
    ∧ (convert_tif ⟨["src"], [("src/abc.tif", FileData.tiff (some ⟨true, [7]⟩))]⟩
        "src" "jpg" 95 false (some "5") none).err = none := by
  constructor
  · decide
  · decide

/-- Claim C1 as amended: when the modulo value parses as a nonzero
integer but some surviving candidate's stem is not integer-parseable,
the per-stem `ValueError` is caught by the surrounding
`except ValueError:` handler: the filter pass is abandoned (the
assignment never happens), the warning is printed, and `convert_tif`
completes normally, converting the full unfiltered candidate set. -/
theorem claim1_amended (fs : FS) (source_folder output_format : String) (quality : Nat)
    (overwrite : Bool) (s : String) (m : Int) (output_path : Option String)
    (hm : pyInt s = some m) (hm0 : m ≠ 0)
    (hbad : ∃ f ∈ tifCandidates
        (setupFS fs (destFolderOf source_folder output_format output_path)) source_folder,
      stemInt f = none) :
    (convert_tif fs source_folder output_format quality overwrite (some s) output_path).err
      = none
    ∧ (convert_tif fs source_folder output_format quality overwrite (some s) output_path).fs
      = (runJobs (destFolderOf source_folder output_format output_path) output_format quality
          overwrite (setupFS fs (destFolderOf source_folder output_format output_path))
          (sortStr (tifCandidates
            (setupFS fs (destFolderOf source_folder output_format output_path))
            source_folder))).1 := by
  have hstep : modFilterStep (tifCandidates
      (setupFS fs (destFolderOf source_folder output_format output_path)) source_folder)
      (some s)
      = Except.ok (tifCandidates
          (setupFS fs (destFolderOf source_folder output_format output_path)) source_folder,
        true) := by
    simp only [modFilterStep, hm, modComp_valueError m _ hm0 hbad]
  constructor
  · simp only [convert_tif, hstep]
  · simp only [convert_tif, hstep]

/-- Witness for the amended C1: a folder with candidates `abc.tif` and
`4.tif` and modulo `"2"` completes without error. -/
theorem claim1_amended_witness :
    (convert_tif ⟨["sf"], [("sf/abc.tif", FileData.tiff (some ⟨true, [1]⟩)),
        ("sf/4.tif", FileData.tiff (some ⟨true, [2]⟩))]⟩
      "sf" "jpg" 90 true (some "2") none).err = none :=
  (claim1_amended _ "sf" "jpg" 90 true "2" 2 none (by decide) (by decide) (by decide)).1

/-! ### Claim C10: modulo value "0" (corrected) -/

/-- Counterexample to claim C10: a folder with exactly one candidate
file whose stem is non-numeric (`abc.tif`) and modulo value `"0"`:
the comprehension raises `ValueError` at `int("abc")` before ever
evaluating `% 0`, the handler catches it, and `convert_tif` completes
normally — so the claimed abort does not happen for every folder with
at least one candidate. -/
theorem claim10_counterexample :
    tifCandidates (setupFS ⟨["s"], [("s/abc.tif", FileData.tiff (some ⟨true, [7]⟩))]⟩
        (destFolderOf "s" "jpg" none)) "s" = ["s/abc.tif"]
    ∧ (convert_tif ⟨["s"], [("s/abc.tif", FileData.tiff (some ⟨true, [7]⟩))]⟩
        "s" "jpg" 95 false (some "0") none).err = none := by
  constructor
  · decide
  · decide

/-- Claim C10 as amended: with modulo value `"0"`, `int("0")` succeeds
and, as soon as the comprehension reaches a first candidate whose stem
parses as an integer, `stem % 0` raises an unguarded
`ZeroDivisionError` (the handler catches only `ValueError`), aborting
the `convert_tif` call.  In particular this holds for every non-empty
candidate list whose first file has a numeric stem. -/
theorem claim10_amended (fs : FS) (source_folder output_format : String) (quality : Nat)
    (overwrite : Bool) (output_path : Option String) (f : String) (rest : List String)
    (k : Int)
    (hc : tifCandidates
        (setupFS fs (destFolderOf source_folder output_format output_path)) source_folder
      = f :: rest)
    (hk : stemInt f = some k) :
    (convert_tif fs source_folder output_format quality overwrite (some "0") output_path).err
      = some PyError.zeroDivisionError := by
  have hzero : pyInt "0" = some 0 := by decide
  have hcomp : modComp 0 (f :: rest) = Except.error PyError.zeroDivisionError := by
    simp only [modComp, hk]
    rw [if_pos (show ((0 : Int) == 0) = true by decide)]
  have hstep : modFilterStep (f :: rest) (some "0")
      = Except.error PyError.zeroDivisionError := by
    simp only [modFilterStep, hzero, hcomp]
  simp only [convert_tif, hc, hstep]

/-- Witness for the amended C10: one candidate `8.tif`, modulo `"0"`:
the call aborts with `ZeroDivisionError`. -/
theorem claim10_amended_witness :
    (convert_tif ⟨["s2"], [("s2/8.tif", FileData.tiff (some ⟨true, [3]⟩))]⟩
        "s2" "png" 80 true (some "0") none).err = some PyError.zeroDivisionError :=
  claim10_amended _ "s2" "png" 80 true none "s2/8.tif" [] 8 (by decide) (by decide)

/-! ### Claim C9: target-type dispatch -/

theorem convert_tif_none_err (fs : FS) (source_folder output_format : String)
    (quality : Nat) (overwrite : Bool) (output_path : Option String) :
    (convert_tif fs source_folder output_format quality overwrite none output_path).err
      = none := by
  simp only [convert_tif, modFilterStep]

theorem runCalls_mod_none (output_format : String) (quality : Nat) (overwrite : Bool)
    (output_path : Option String) (l : List String) : ∀ fs : FS,
    (runCalls output_format quality overwrite none output_path fs l).2.1 = l
    ∧ (runCalls output_format quality overwrite none output_path fs l).2.2 = none := by
  induction l with
  | nil => intro fs; exact ⟨rfl, rfl⟩
  | cons c cs ih =>
    intro fs
    constructor
    · simp only [runCalls, convert_tif_none_err]
      rw [(ih _).1]
    · simp only [runCalls, convert_tif_none_err]
      rw [(ih _).2]

theorem runCalls_mod_none_eta (output_format : String) (quality : Nat) (overwrite : Bool)
    (output_path : Option String) (l : List String) (fs : FS) :
    runCalls output_format quality overwrite none output_path fs l
      = ((runCalls output_format quality overwrite none output_path fs l).1, l, none) := by
  have h1 := (runCalls_mod_none output_format quality overwrite output_path l fs).1
  have h2 := (runCalls_mod_none output_format quality overwrite output_path l fs).2
  rcases hr : runCalls output_format quality overwrite none output_path fs l with ⟨a, b, c⟩
  rw [hr] at h1 h2
  simp only at h1 h2
  simp [h1, h2]

/-- Claim C9: at a directory whose basename is in the target set (and
not pruned): if it is named `layers` the Folder Converter runs directly
on it (then the walk continues below); otherwise it runs once per
immediate subdirectory, skipping subdirectories ending in `_jpg`/`_png`,
before the walk continues below.  End-to-end: a `volumes/` directory
with `volA/` (3 TIFFs) and `volB/` (2 TIFFs), run with target
`volumes`, format `png`, overwrite true, produces `volumes/volA_png/`
with 3 PNGs and `volumes/volB_png/` with 2 PNGs, invokes the converter
exactly on `volA` and `volB`, and `volumes/` itself gains no direct
output folder. -/
theorem claim9_target_dispatch :
    (∀ (targets : List String) (output_format : String) (quality : Nat) (overwrite : Bool)
        (output_path : Option String) (fs : FS) (path nm : String) (subs : List Dir),
      strEnds path ".zarr" = false →
      targets.contains (pyBasename path) = true →
      pyBasename path = "layers" →
      (walkTree targets output_format quality overwrite none output_path fs path
          (Dir.node nm subs)).2.1
        = path :: (walkSubs targets output_format quality overwrite none output_path
            (convert_tif fs path output_format quality overwrite none output_path).fs
            path subs).2.1)
    ∧ (∀ (targets : List String) (output_format : String) (quality : Nat) (overwrite : Bool)
        (output_path : Option String) (fs : FS) (path nm : String) (subs : List Dir),
      strEnds path ".zarr" = false →
      targets.contains (pyBasename path) = true →
      pyBasename path ≠ "layers" →
      (walkTree targets output_format quality overwrite none output_path fs path
          (Dir.node nm subs)).2.1
        = (subs.filterMap (fun s =>
            if strEnds s.name "_jpg" || strEnds s.name "_png" then none
            else some (pyJoin path s.name)))
          ++ (walkSubs targets output_format quality overwrite none output_path
              (runCalls output_format quality overwrite none output_path fs
                (subs.filterMap (fun s =>
                  if strEnds s.name "_jpg" || strEnds s.name "_png" then none
                  else some (pyJoin path s.name)))).1
              path subs).2.1)
    ∧ process_specific_folders
        ⟨["root", "root/volumes", "root/volumes/volA", "root/volumes/volB"],
          [("root/volumes/volA/0.tif", FileData.tiff (some ⟨false, [256]⟩)),
           ("root/volumes/volA/1.tif", FileData.tiff (some ⟨false, [256]⟩)),
           ("root/volumes/volA/2.tif", FileData.tiff (some ⟨false, [256]⟩)),
           ("root/volumes/volB/0.tif", FileData.tiff (some ⟨false, [256]⟩)),
           ("root/volumes/volB/1.tif", FileData.tiff (some ⟨false, [256]⟩))]⟩
        "root"
        (some (Dir.node "root" [Dir.node "volumes" [Dir.node "volA" [], Dir.node "volB" []]]))
        ["volumes"] "png" 95 true none none
      = (⟨["root", "root/volumes", "root/volumes/volA", "root/volumes/volB",
            "root/volumes/volA_png", "root/volumes/volB_png"],
          [("root/volumes/volA/0.tif", FileData.tiff (some ⟨false, [256]⟩)),
           ("root/volumes/volA/1.tif", FileData.tiff (some ⟨false, [256]⟩)),
           ("root/volumes/volA/2.tif", FileData.tiff (some ⟨false, [256]⟩)),
           ("root/volumes/volB/0.tif", FileData.tiff (some ⟨false, [256]⟩)),
           ("root/volumes/volB/1.tif", FileData.tiff (some ⟨false, [256]⟩)),
           ("root/volumes/volA_png/0.png", FileData.out "png" none [1]),
           ("root/volumes/volA_png/1.png", FileData.out "png" none [1]),
           ("root/volumes/volA_png/2.png", FileData.out "png" none [1]),
           ("root/volumes/volB_png/0.png", FileData.out "png" none [1]),
           ("root/volumes/volB_png/1.png", FileData.out "png" none [1])]⟩,
         ["root/volumes/volA", "root/volumes/volB"], none) := by
  refine ⟨?_, ?_, ?_⟩
  · intro targets output_format quality overwrite output_path fs path nm subs hz hcont hlay
    have hbeq : (pyBasename path == "layers") = true := by rw [hlay]; exact beq_self_eq_true _
    simp only [walkTree, hz, Bool.false_eq_true, if_false, hcont, if_true, hbeq,
      runCalls, convert_tif_none_err, List.singleton_append]
  · intro targets output_format quality overwrite output_path fs path nm subs hz hcont hlay
    have hbeq : (pyBasename path == "layers") = false := beq_eq_false_iff_ne.2 hlay
    simp only [walkTree, hz, Bool.false_eq_true, if_false, hcont, if_true, hbeq]
    rw [runCalls_mod_none_eta]
  · rfl

/-- Witness for C9: a matched `volumes` directory with subdirectories
`a` and `b_png` passes exactly `a` to the converter (the `_png` one is
skipped), and the walk below adds nothing. -/
theorem claim9_target_dispatch_witness :
    (walkTree ["volumes"] "png" 90 true none none
        ⟨["v", "v/volumes", "v/volumes/a"],
          [("v/volumes/a/0.tif", FileData.tiff (some ⟨true, [5]⟩))]⟩
        "v/volumes" (Dir.node "volumes" [Dir.node "a" [], Dir.node "b_png" []])).2.1
      = ["v/volumes/a"] := by
  have h := claim9_target_dispatch.2.1 ["volumes"] "png" 90 true none
    ⟨["v", "v/volumes", "v/volumes/a"],
      [("v/volumes/a/0.tif", FileData.tiff (some ⟨true, [5]⟩))]⟩
    "v/volumes" "volumes" [Dir.node "a" [], Dir.node "b_png" []]
    (by decide) (by decide) (by decide)
  rw [h]
  decide

/-! ### Claim C6: idempotence under overwrite=false -/

theorem convert_single_skip (fs : FS) (f dest fmt : String) (q : Nat)
    (h : fs.pathExists (destFilePath dest f fmt) = true) :
    convert_single_tif fs f dest fmt q false = (fs, []) := by
  simp [convert_single_tif, h]

theorem hasFile_false_of_pathExists_false (fs : FS) (p : String)
    (h : fs.pathExists p = false) : fs.hasFile p = false := by
  unfold FS.pathExists at h
  exact (Bool.or_eq_false_iff.1 h).2

theorem writeFile_fresh_ne (fs : FS) (p : String) (d : FileData)
    (h : fs.hasFile p = false) : fs.writeFile p d ≠ fs := by
  unfold FS.writeFile
  rw [if_neg (by rw [h]; exact Bool.false_ne_true)]
  intro hc
  have hlen := congrArg (fun z => z.files.length) hc
  simp at hlen

theorem convert_single_shape (fs : FS) (f dest fmt : String) (q : Nat) :
    (convert_single_tif fs f dest fmt q false).1 = fs
    ∨ (fs.pathExists (destFilePath dest f fmt) = false
       ∧ gPath (destFilePath dest f fmt)
       ∧ ∃ d, (convert_single_tif fs f dest fmt q false).1
           = fs.writeFile (destFilePath dest f fmt) d) := by
  rcases hex : fs.pathExists (destFilePath dest f fmt) with _ | _
  · rcases hget : fs.getFile f with _ | fd
    · left; simp [convert_single_tif, hex, hget]
    · cases fd with
      | tiff img =>
        cases img with
        | none => left; simp [convert_single_tif, hex, hget]
        | some im =>
          rcases hjpg : (fmt == "jpg") with _ | _
          · rcases hpng : (fmt == "png") with _ | _
            · left; simp [convert_single_tif, hex, hget, hjpg, hpng]
            · right
              refine ⟨rfl, gPath_destFilePath dest f fmt (Or.inr (beq_iff_eq.1 hpng)), ?_⟩
              refine ⟨FileData.out "png" none
                (if im.dtype8 then im.pixels else im.pixels.map rescale8), ?_⟩
              simp [convert_single_tif, hex, hget, hjpg, hpng]
          · right
            refine ⟨rfl, gPath_destFilePath dest f fmt (Or.inl (beq_iff_eq.1 hjpg)), ?_⟩
            refine ⟨FileData.out "jpg" (some q)
              (if im.dtype8 then im.pixels else im.pixels.map rescale8), ?_⟩
            simp [convert_single_tif, hex, hget, hjpg]
      | out fo qo po => left; simp [convert_single_tif, hex, hget]
      | blob => left; simp [convert_single_tif, hex, hget]
  · left; simp [convert_single_tif, hex]

theorem settled_of_exists (fs : FS) (f dest fmt : String) (q : Nat)
    (h : fs.pathExists (destFilePath dest f fmt) = true) :
    Settled dest fmt q fs f := by
  unfold Settled
  rw [convert_single_skip fs f dest fmt q h]

theorem settled_after_self (fs : FS) (f dest fmt : String) (q : Nat) :
    Settled dest fmt q (convert_single_tif fs f dest fmt q false).1 f := by
  rcases convert_single_shape fs f dest fmt q with h | ⟨hex, hg, d, hw⟩
  · unfold Settled
    rw [h]
    exact h
  · rw [hw]
    exact settled_of_exists _ _ _ _ _ (pathExists_writeFile_self fs _ d)

theorem convert_single_noop_of (fs : FS) (f dest fmt : String) (q : Nat)
    (h : (∀ im : PyImage, fs.getFile f ≠ some (FileData.tiff (some im)))
      ∨ ((fmt == "jpg") = false ∧ (fmt == "png") = false)) :
    (convert_single_tif fs f dest fmt q false).1 = fs := by
  rcases hex : fs.pathExists (destFilePath dest f fmt) with _ | _
  · rcases hget : fs.getFile f with _ | fd
    · simp [convert_single_tif, hex, hget]
    · cases fd with
      | tiff img =>
        cases img with
        | none => simp [convert_single_tif, hex, hget]
        | some im =>
          rcases h with h | ⟨hj, hp⟩
          · exact absurd hget (h im)
          · simp [convert_single_tif, hex, hget, hj, hp]
      | out fo qo po => simp [convert_single_tif, hex, hget]
      | blob => simp [convert_single_tif, hex, hget]
  · simp [convert_single_tif, hex]

theorem convert_single_write_cond (fs : FS) (f dest fmt : String) (q : Nat)
    (hex : fs.pathExists (destFilePath dest f fmt) = false)
    (hres : (convert_single_tif fs f dest fmt q false).1 = fs) :
    (∀ im : PyImage, fs.getFile f ≠ some (FileData.tiff (some im)))
    ∨ ((fmt == "jpg") = false ∧ (fmt == "png") = false) := by
  rcases hget : fs.getFile f with _ | fd
  · left; intro im hc; simp at hc
  · cases fd with
    | tiff img =>
      cases img with
      | none => left; intro im hc; simp at hc
      | some im =>
        right
        have hhf : fs.hasFile (destFilePath dest f fmt) = false :=
          hasFile_false_of_pathExists_false fs _ hex
        constructor
        · rcases hj : (fmt == "jpg") with _ | _
          · rfl
          · exfalso
            have hwr : (convert_single_tif fs f dest fmt q false).1
                = fs.writeFile (destFilePath dest f fmt)
                    (FileData.out "jpg" (some q)
                      (if im.dtype8 then im.pixels else im.pixels.map rescale8)) := by
              simp [convert_single_tif, hex, hget, hj]
            rw [hwr] at hres
            exact writeFile_fresh_ne fs _ _ hhf hres
        · rcases hp : (fmt == "png") with _ | _
          · rfl
          · exfalso
            have hj : (fmt == "jpg") = false := by
              rw [beq_iff_eq.1 hp]
              decide
            have hwr : (convert_single_tif fs f dest fmt q false).1
                = fs.writeFile (destFilePath dest f fmt)
                    (FileData.out "png" none
                      (if im.dtype8 then im.pixels else im.pixels.map rescale8)) := by
              simp [convert_single_tif, hex, hget, hj, hp]
            rw [hwr] at hres
            exact writeFile_fresh_ne fs _ _ hhf hres
    | out fo qo po => left; intro im hc; simp at hc
    | blob => left; intro im hc; simp at hc

theorem settled_mono_job (fs : FS) (f g dest fmt : String) (q : Nat)
    (hf : fPath f) (hs : Settled dest fmt q fs f) :
    Settled dest fmt q (convert_single_tif fs g dest fmt q false).1 f := by
  rcases convert_single_shape fs g dest fmt q with h | ⟨hexg, hgg, d, hw⟩
  · rw [h]; exact hs
  · rw [hw]
    rcases hex2 : (fs.writeFile (destFilePath dest g fmt) d).pathExists
        (destFilePath dest f fmt) with _ | _
    · have hexf : fs.pathExists (destFilePath dest f fmt) = false := by
        rcases hb : fs.pathExists (destFilePath dest f fmt) with _ | _
        · rfl
        · have hmono := pathExists_writeFile_mono fs (destFilePath dest g fmt)
            (destFilePath dest f fmt) d hb
          rw [hex2] at hmono
          cases hmono
      have hcond := convert_single_write_cond fs f dest fmt q hexf hs
      have hget : (fs.writeFile (destFilePath dest g fmt) d).getFile f = fs.getFile f :=
        getFile_writeFile_ne fs _ f d (ne_of_fPath_gPath f _ hf hgg)
      unfold Settled
      apply convert_single_noop_of
      rcases hcond with hc | hc
      · left; intro im; rw [hget]; exact hc im
      · right; exact hc
    · exact settled_of_exists _ _ _ _ _ hex2

theorem filterMap_ext {α β : Type} (f g : α → Option β) (l : List α)
    (h : ∀ a, f a = g a) : l.filterMap f = l.filterMap g := by
  induction l with
  | nil => rfl
  | cons a as ih => simp [List.filterMap_cons, h a, ih]

theorem gate_childName_none (dd p n src : String) (hg : gPath p)
    (hc : childName dd p = some n) :
    (if isTifName n then some (pyJoin src n) else none) = none := by
  rcases childName_some dd p n hc with ⟨hne, _, pre, hdata⟩
  have hlast : n.data.getLast? = some 'g' := by
    unfold gPath at hg
    rw [hdata, getLast_append_right pre n.data hne] at hg
    exact hg
  rw [isTifName_eq_false_of_g n hlast]
  simp

theorem tifCandidates_writeFile (fs : FS) (p : String) (d : FileData) (hg : gPath p)
    (src : String) :
    tifCandidates (fs.writeFile p d) src = tifCandidates fs src := by
  unfold tifCandidates
  congr 1
  have hdirs : (fs.writeFile p d).dirs = fs.dirs := by
    unfold FS.writeFile
    split
    · rfl
    · rfl
  unfold FS.listdir
  rw [hdirs, List.filterMap_append, List.filterMap_append]
  congr 1
  unfold FS.writeFile
  by_cases h : fs.hasFile p = true
  · rw [if_pos h]
    simp only
    rw [List.filterMap_map]
    have hpt : ∀ e : String × FileData,
        childName src ((if e.1 == p then (p, d) else e).1) = childName src e.1 := by
      intro e
      by_cases hep : (e.1 == p) = true
      · rw [if_pos hep]
        rw [beq_iff_eq.1 hep]
      · rw [if_neg hep]
    have hcomp : ∀ e : String × FileData,
        ((fun e : String × FileData => childName src e.1) ∘
          (fun e : String × FileData => if e.1 == p then (p, d) else e)) e
        = childName src e.1 := by
      intro e
      exact hpt e
    rw [filterMap_ext _ _ fs.files hcomp]
  · rw [if_neg h]
    simp only
    rw [List.filterMap_append, List.filterMap_append]
    rcases hcn : childName src p with _ | n
    · simp [List.filterMap_cons, hcn]
    · simp [List.filterMap_cons, hcn, gate_childName_none src p n src hg hcn]

theorem job_pathExists_mono (fs : FS) (g dest fmt : String) (q : Nat) (p : String)
    (hp : fs.pathExists p = true) :
    (convert_single_tif fs g dest fmt q false).1.pathExists p = true := by
  rcases convert_single_shape fs g dest fmt q with h | ⟨_, _, d, hw⟩
  · rw [h]; exact hp
  · rw [hw]
    exact pathExists_writeFile_mono fs _ p d hp

theorem job_tifCandidates (fs : FS) (g dest fmt : String) (q : Nat) (src : String) :
    tifCandidates (convert_single_tif fs g dest fmt q false).1 src
      = tifCandidates fs src := by
  rcases convert_single_shape fs g dest fmt q with h | ⟨_, hgg, d, hw⟩
  · rw [h]
  · rw [hw]
    exact tifCandidates_writeFile fs _ d hgg src

theorem runJobs_invariants (dest fmt : String) (q : Nat) : ∀ (L : List String) (fs : FS),
    (∀ f ∈ L, fPath f) →
    (∀ p, fs.pathExists p = true → (runJobs dest fmt q false fs L).1.pathExists p = true)
    ∧ (∀ src, tifCandidates (runJobs dest fmt q false fs L).1 src = tifCandidates fs src)
    ∧ (∀ f, fPath f → Settled dest fmt q fs f →
        Settled dest fmt q (runJobs dest fmt q false fs L).1 f)
    ∧ (∀ f ∈ L, Settled dest fmt q (runJobs dest fmt q false fs L).1 f) := by
  intro L
  induction L with
  | nil =>
    intro fs _
    exact ⟨fun p h => h, fun src => rfl, fun f _ h => h, by simp⟩
  | cons g rest ih =>
    intro fs hL
    have hgf : fPath g := hL g (List.mem_cons_self g rest)
    have hrest : ∀ f ∈ rest, fPath f := fun f hf => hL f (List.mem_cons_of_mem g hf)
    obtain ⟨ih1, ih2, ih3, ih4⟩ := ih (convert_single_tif fs g dest fmt q false).1 hrest
    have hun : (runJobs dest fmt q false fs (g :: rest)).1
        = (runJobs dest fmt q false (convert_single_tif fs g dest fmt q false).1 rest).1 :=
      rfl
    refine ⟨?_, ?_, ?_, ?_⟩
    · intro p hp
      rw [hun]
      exact ih1 p (job_pathExists_mono fs g dest fmt q p hp)
    · intro src
      rw [hun, ih2 src, job_tifCandidates]
    · intro f hf hsf
      rw [hun]
      exact ih3 f hf (settled_mono_job fs f g dest fmt q hf hsf)
    · intro f hf
      rcases List.mem_cons.1 hf with rfl | hf2
      · rw [hun]
        exact ih3 f hgf (settled_after_self fs f dest fmt q)
      · rw [hun]
        exact ih4 f hf2

theorem runJobs_noop (dest fmt : String) (q : Nat) : ∀ (L : List String) (fs : FS),
    (∀ f ∈ L, Settled dest fmt q fs f) →
    (runJobs dest fmt q false fs L).1 = fs := by
  intro L
  induction L with
  | nil => intro fs _; rfl
  | cons g rest ih =>
    intro fs hall
    have hg := hall g (List.mem_cons_self g rest)
    have hun : (runJobs dest fmt q false fs (g :: rest)).1
        = (runJobs dest fmt q false (convert_single_tif fs g dest fmt q false).1 rest).1 :=
      rfl
    rw [hun]
    unfold Settled at hg
    rw [hg]
    exact ih fs (fun f hf => hall f (List.mem_cons_of_mem g hf))

theorem modComp_sub (m : Int) : ∀ (l l2 : List String),
    modComp m l = Except.ok l2 → ∀ f ∈ l2, f ∈ l := by
  intro l
  induction l with
  | nil =>
    intro l2 h f hf
    unfold modComp at h
    injection h with h
    subst h
    cases hf
  | cons a rest ih =>
    intro l2 h f hf
    rcases hsa : stemInt a with _ | k
    · simp only [modComp, hsa] at h
      cases h
    · simp only [modComp, hsa] at h
      rcases hm0 : (m == 0) with _ | _
      · rw [hm0] at h
        simp only [Bool.false_eq_true, if_false] at h
        rcases hrec : modComp m rest with e | lr
        · rw [hrec] at h; cases h
        · rw [hrec] at h
          simp only at h
          injection h with h
          subst h
          by_cases hk : (pyMod k m == 0) = true
          · rw [if_pos hk] at hf
            rcases List.mem_cons.1 hf with rfl | hf2
            · exact List.mem_cons_self _ _
            · exact List.mem_cons_of_mem _ (ih lr hrec f hf2)
          · rw [if_neg hk] at hf
            exact List.mem_cons_of_mem _ (ih lr hrec f hf)
      · rw [hm0] at h
        simp only [if_true] at h
        cases h

theorem modFilterStep_sub (l l2 : List String) (mv : Option String) (w : Bool)
    (h : modFilterStep l mv = Except.ok (l2, w)) : ∀ f ∈ l2, f ∈ l := by
  cases mv with
  | none =>
    simp only [modFilterStep] at h
    injection h with h
    injection h with h1 h2
    subst h1
    exact fun f hf => hf
  | some s =>
    simp only [modFilterStep] at h
    rcases hs : pyInt s with _ | m
    · simp only [hs] at h
      injection h with h
      injection h with h1 h2
      subst h1
      exact fun f hf => hf
    · simp only [hs] at h
      rcases hc : modComp m l with e | lr
      · cases e with
        | valueError =>
          simp only [hc] at h
          injection h with h
          injection h with h1 h2
          subst h1
          exact fun f hf => hf
        | zeroDivisionError =>
          simp only [hc] at h
          cases h
      · simp only [hc] at h
        injection h with h
        injection h with h1 h2
        subst h1
        exact modComp_sub m l lr hc

theorem setupFS_of_exists (fs : FS) (dest : String) (h : fs.pathExists dest = true) :
    setupFS fs dest = fs := by
  unfold setupFS
  rw [if_pos h]

theorem convert_tif_fs_error (fs : FS) (source_folder output_format : String) (q : Nat)
    (ow : Bool) (mv output_path : Option String) (e : PyError)
    (h : modFilterStep (tifCandidates
        (setupFS fs (destFolderOf source_folder output_format output_path)) source_folder)
      mv = Except.error e) :
    (convert_tif fs source_folder output_format q ow mv output_path).fs
      = setupFS fs (destFolderOf source_folder output_format output_path) := by
  simp only [convert_tif, h]

theorem convert_tif_fs_ok (fs : FS) (source_folder output_format : String) (q : Nat)
    (ow : Bool) (mv output_path : Option String) (l2 : List String) (w : Bool)
    (h : modFilterStep (tifCandidates
        (setupFS fs (destFolderOf source_folder output_format output_path)) source_folder)
      mv = Except.ok (l2, w)) :
    (convert_tif fs source_folder output_format q ow mv output_path).fs
      = (runJobs (destFolderOf source_folder output_format output_path) output_format q ow
          (setupFS fs (destFolderOf source_folder output_format output_path))
          (sortStr l2)).1 := by
  simp only [convert_tif, h]

/-- Claim C6: the Folder Converter is idempotent under `overwrite=false`:
for every filesystem, source folder, format, quality, modulo value and
output path, running `convert_tif` twice with the same arguments and
overwrite disabled leaves the filesystem identical after the second
run — the second run creates no new files and changes no existing one. -/
theorem claim6_idempotent (fs : FS) (source_folder output_format : String) (quality : Nat)
    (mod_value output_path : Option String) :
    (convert_tif (convert_tif fs source_folder output_format quality false mod_value
        output_path).fs
      source_folder output_format quality false mod_value output_path).fs
    = (convert_tif fs source_folder output_format quality false mod_value output_path).fs := by
  rcases hstep : modFilterStep (tifCandidates
      (setupFS fs (destFolderOf source_folder output_format output_path)) source_folder)
      mod_value with e | ⟨l2, w⟩
  · have h1 := convert_tif_fs_error fs source_folder output_format quality false mod_value
      output_path e hstep
    have hsetup2 : setupFS (setupFS fs (destFolderOf source_folder output_format output_path))
        (destFolderOf source_folder output_format output_path)
        = setupFS fs (destFolderOf source_folder output_format output_path) :=
      setupFS_of_exists _ _ (pathExists_setupFS fs _)
    have hstep2 : modFilterStep (tifCandidates
        (setupFS (setupFS fs (destFolderOf source_folder output_format output_path))
          (destFolderOf source_folder output_format output_path)) source_folder)
        mod_value = Except.error e := by
      rw [hsetup2]
      exact hstep
    have h2 := convert_tif_fs_error
      (setupFS fs (destFolderOf source_folder output_format output_path))
      source_folder output_format quality false mod_value output_path e hstep2
    rw [h1, h2, hsetup2]
  · have h1 := convert_tif_fs_ok fs source_folder output_format quality false mod_value
      output_path l2 w hstep
    have hfp : ∀ f ∈ sortStr l2, fPath f := by
      intro f hfm
      exact fPath_of_mem_tifCandidates _ _ f
        (modFilterStep_sub _ _ _ _ hstep f ((mem_sortStr f l2).1 hfm))
    obtain ⟨hmono, hcand, _, hsettled⟩ :=
      runJobs_invariants (destFolderOf source_folder output_format output_path)
        output_format quality (sortStr l2)
        (setupFS fs (destFolderOf source_folder output_format output_path)) hfp
    have hexA : (runJobs (destFolderOf source_folder output_format output_path)
        output_format quality false
        (setupFS fs (destFolderOf source_folder output_format output_path))
        (sortStr l2)).1.pathExists
          (destFolderOf source_folder output_format output_path) = true :=
      hmono _ (pathExists_setupFS fs _)
    have hsetup2 := setupFS_of_exists _ _ hexA
    have hstep2 : modFilterStep (tifCandidates
        (setupFS ((runJobs (destFolderOf source_folder output_format output_path)
            output_format quality false
            (setupFS fs (destFolderOf source_folder output_format output_path))
            (sortStr l2)).1)
          (destFolderOf source_folder output_format output_path)) source_folder)
        mod_value = Except.ok (l2, w) := by
      rw [hsetup2, hcand source_folder]
      exact hstep
    have h2 := convert_tif_fs_ok
      ((runJobs (destFolderOf source_folder output_format output_path) output_format quality
        false (setupFS fs (destFolderOf source_folder output_format output_path))
        (sortStr l2)).1)
      source_folder output_format quality false mod_value output_path l2 w hstep2
    rw [h1, h2, hsetup2]
    exact runJobs_noop _ _ _ (sortStr l2) _ hsettled
